import Mathlib

/-!
Shallow embedding of `src/main.rs` of the codecrafters-redis-rust repository:
a small Redis-like server (wire decoder `CharRoller`, command parser
`handle_client_message`, and the storage `Get`/`Set` arms of `handle_stream`).

Modelling conventions:
* Rust `panic!` / `.unwrap()` failures are modelled as `Except.error` /
  `StepResult.fatal` carrying the panic message; `Except.ok` is normal return.
* `Instant` is a `Nat` of milliseconds; `Duration::from_secs(1)` is `1000`,
  `Duration::from_millis(ms)` is `ms`.
* Rust strings are Lean `String`s; byte indexing `word[1..]` is modelled on
  the character list (the sliced-off character `'*'` is one byte wide).
* `u64`/`usize` parsing keeps Rust's overflow bound `2 ^ 64`; the release-mode
  wrap of `items_left_count - 1` at zero is `u64_sub_one`.
* The shared `HashMap<String, StorageEntry>` is an association list with
  unique keys: `insert` replaces, `remove` deletes, `get` finds.
-/

namespace Redis

/-- `enum MessageType` from the source. -/
inductive MessageType where
  | SimpleString
  | Error
  | Integer
  | BulkString
  | Array
deriving DecidableEq

/-- `enum Command` from the source. -/
inductive Command where
  | Echo (s : String)
  | Command (s : String)
  | Get (key : String)
  | Set (key value : String) (expiry : Option Nat)
  | Ping
deriving DecidableEq

/-- `struct StorageEntry` from the source. -/
structure StorageEntry where
  expire_timestamp : Option Nat
  value : String
deriving DecidableEq

/-- `StorageEntry::new` from the source. -/
def StorageEntry.new (value : String) (expire_timestamp : Option Nat) : StorageEntry :=
  ⟨expire_timestamp, value⟩

/-- `const SEPARATOR: &str` from the source. -/
def SEPARATOR : String := "\r\n"

/-- `const NULL_BULK_STRING: &str` from the source. -/
def NULL_BULK_STRING : String := "$-1\r\n"

/-- `format_message` from the source; `body.len()` is the UTF-8 byte length. -/
def format_message (kind : MessageType) (body : String) : String :=
  let message :=
    match kind with
    | .SimpleString => "+" ++ body
    | .Error => "-" ++ body
    | .Integer => ":"
    | .BulkString => "$" ++ toString body.utf8ByteSize ++ SEPARATOR ++ body
    | .Array => "*"
  message ++ SEPARATOR

/-- The `HashMap<String, StorageEntry>` storage, as an association list. -/
abbrev Storage := List (String × StorageEntry)

/-- `HashMap::get` on the storage map. -/
def Storage.get (storage : Storage) (key : String) : Option StorageEntry :=
  (storage.find? (fun p => p.1 == key)).map Prod.snd

/-- `HashMap::remove` on the storage map. -/
def Storage.remove (storage : Storage) (key : String) : Storage :=
  storage.filter (fun p => !(p.1 == key))

/-- `HashMap::insert` on the storage map: replaces any previous entry. -/
def Storage.insert (storage : Storage) (key : String) (entry : StorageEntry) : Storage :=
  (key, entry) :: Storage.remove storage key

/-- The `Command::Get` arm of `handle_stream`: lazily evicting read.
`now` is the `Instant::now()` taken inside the arm; the result is the
storage after the operation and the reply string written to the socket. -/
def get_command (storage : Storage) (key : String) (now : Nat) : Storage × String :=
  match Storage.get storage key with
  | some entry =>
    let expiry := entry.expire_timestamp.getD (now + 1000)
    if entry.expire_timestamp.isSome ∧ now > expiry then
      (Storage.remove storage key, NULL_BULK_STRING)
    else
      (storage, format_message .BulkString entry.value)
  | none => (storage, NULL_BULK_STRING)

/-- The `Command::Set` arm of `handle_stream`: absolute expiry is
`Instant::now() + Duration::from_millis(ms)` when a TTL is present. -/
def set_command (storage : Storage) (key value : String) (expiry : Option Nat)
    (now : Nat) : Storage × String :=
  let entry := StorageEntry.new value
    (match expiry with
     | some ms => some (now + ms)
     | none => none)
  (Storage.insert storage key entry, format_message .SimpleString "OK")

/-- `str::trim`: drops leading and trailing whitespace characters. -/
def rust_trim (s : String) : String :=
  let l := s.toList.dropWhile Char.isWhitespace
  ⟨(l.reverse.dropWhile Char.isWhitespace).reverse⟩

/-- `String::to_lowercase`, character by character. -/
def rust_to_lowercase (s : String) : String :=
  ⟨s.toList.map Char.toLower⟩

/-- Digit-accumulator loop of Rust's unsigned integer `FromStr`. -/
def parseDigitsAcc : List Char → Nat → Option Nat
  | [], acc => some acc
  | c :: rest, acc =>
    if c.isDigit then parseDigitsAcc rest (acc * 10 + (c.toNat - 48)) else none

/-- Rust's `str::parse::<u64>` / `parse::<usize>` (64-bit target): an optional
leading `+`, then one or more ASCII digits, rejecting overflow past `2 ^ 64`. -/
def rust_parse_u64 (s : String) : Option Nat :=
  let cs :=
    match s.toList with
    | '+' :: rest => rest
    | l => l
  match cs with
  | [] => none
  | _ :: _ =>
    match parseDigitsAcc cs 0 with
    | some v => if v < 2 ^ 64 then some v else none
    | none => none

/-- Release-mode `u64` decrement: `0 - 1` wraps. -/
def u64_sub_one (n : Nat) : Nat :=
  if n = 0 then 2 ^ 64 - 1 else n - 1

/-- `get_instruction_type` from the source; the panic on an unknown leading
character is the `.error` case. -/
def get_instruction_type (c : Char) : Except String MessageType :=
  if c = '+' then .ok .SimpleString
  else if c = '-' then .ok .Error
  else if c = ':' then .ok .Integer
  else if c = '$' then .ok .BulkString
  else if c = '*' then .ok .Array
  else .error ("unknown type: " ++ c.toString)

/-- `enum State` from the source. -/
inductive State where
  | ReadingArray
  | ReadingBulkStringLength
  | ReadingBulkStringContent
deriving DecidableEq

/-- The command-name `match` inside the `ReadingBulkStringContent` arm of
`handle_client_message`. `.ok (some cmd)` is an arm that pushes `cmd` and
resets `command_name`; `.ok none` is the unknown-name arm (logged, nothing
pushed, `command_name` not reset); `.error` is a panic (out-of-bounds
indexing of `args`). -/
def dispatch_command (command_name : String) (args : List String) :
    Except String (Option Command) :=
  match rust_to_lowercase command_name with
  | "ping" => .ok (some .Ping)
  | "echo" => .ok (some (.Echo (String.intercalate " " args)))
  | "get" =>
    match args.get? 0 with
    | some a0 => .ok (some (.Get a0))
    | none => .error "index out of bounds"
  | "set" =>
    let expiry : Option Nat :=
      if args.length = 4 then
        match rust_parse_u64 (args.getD 3 "") with
        | some e => if e > 0 then some e else none
        | none => none
      else none
    match args.get? 0, args.get? 1 with
    | some a0, some a1 => .ok (some (.Set a0 a1 expiry))
    | _, _ => .error "index out of bounds"
  | "command" => .ok (some (.Command (String.intercalate " " args)))
  | _ => .ok none

/-- Result of one iteration of the `while let` loop of
`handle_client_message`: either a panic, or the updated mutable state
`(state, command_name, args, instructions, items_left_count)`. -/
inductive StepResult where
  | fatal (msg : String)
  | next (state : State) (command_name : String) (args : List String)
      (instructions : List Command) (items_left_count : Nat)
deriving DecidableEq

/-- One iteration of the loop body of `handle_client_message`, on the word
just produced by `CharRoller::next_word`. -/
def parser_step (raw_word : String) (state : State) (command_name : String)
    (args : List String) (instructions : List Command)
    (items_left_count : Nat) : StepResult :=
  let word := rust_trim raw_word
  match state with
  | .ReadingArray =>
    match word.toList.head? with
    | none => .fatal "unwrap of nth 0 on empty word"
    | some c =>
      match get_instruction_type c with
      | .error e => .fatal e
      | .ok instruction_type =>
        if instruction_type ≠ MessageType.Array then .fatal "expected array"
        else
          match rust_parse_u64 ⟨word.toList.drop 1⟩ with
          | none => .fatal "array length unwrap failed"
          | some array_length =>
            .next .ReadingBulkStringLength command_name args instructions array_length
  | .ReadingBulkStringLength =>
    match word.toList.head? with
    | none => .fatal "unwrap of nth 0 on empty word"
    | some c =>
      match get_instruction_type c with
      | .error e => .fatal e
      | .ok instruction_type =>
        if instruction_type ≠ MessageType.BulkString then .fatal "expected bulk string"
        else .next .ReadingBulkStringContent command_name args instructions items_left_count
  | .ReadingBulkStringContent =>
    let acc := if command_name = "" then (word, args) else (command_name, args ++ [word])
    if items_left_count ≠ 1 then
      .next .ReadingBulkStringLength acc.1 acc.2 instructions (u64_sub_one items_left_count)
    else
      match dispatch_command acc.1 acc.2 with
      | .error e => .fatal e
      | .ok (some cmd) =>
        .next .ReadingBulkStringLength "" acc.2 (instructions ++ [cmd]) items_left_count
      | .ok none =>
        .next .ReadingBulkStringLength acc.1 acc.2 instructions items_left_count

/-- The inner `while` of `CharRoller::next_word`, on the characters at and
after the cursor: skips `'\r'`, stops consuming at `'\n'`, accumulates any
other character.  Returns the accumulated word and the remaining suffix. -/
def nextWordLoop : List Char → List Char → List Char × List Char
  | [], word => (word, [])
  | c :: rest, word =>
    if c = '\r' then nextWordLoop rest word
    else if c = '\n' then (word, rest)
    else nextWordLoop rest (word ++ [c])

/-- `CharRoller::next_word`, with the roller state as the list of characters
at and after the cursor.  Returns `none` immediately at end of buffer, and
`none` for a zero-length accumulated word. -/
def next_word (chars : List Char) : Option String × List Char :=
  match chars with
  | [] => (none, [])
  | _ :: _ =>
    let r := nextWordLoop chars []
    (if r.1.isEmpty then none else some ⟨r.1⟩, r.2)

/-- Repeated `next_word` calls of the `while let Some(...)` loops: the
sequence of words until the first `none`. -/
def allWords (chars : List Char) : List String :=
  match h : next_word chars with
  | (none, _) => []
  | (some w, rest) => w :: allWords rest
termination_by chars.length
decreasing_by
  have key : ∀ (cs : List Char) (acc : List Char),
      (nextWordLoop cs acc).2.length ≤ cs.length := by
    intro cs
    induction cs with
    | nil => intro acc; simp [nextWordLoop]
    | cons c rest2 ih =>
      intro acc
      simp only [nextWordLoop]
      split
      · exact Nat.le_succ_of_le (ih acc)
      · split
        · exact Nat.le_succ_of_le (Nat.le_refl _)
        · exact Nat.le_succ_of_le (ih _)
  cases chars with
  | nil => simp [next_word] at h
  | cons c cs =>
    simp only [next_word] at h
    have h2 : rest = (nextWordLoop (c :: cs) []).2 := by
      cases h2' : nextWordLoop (c :: cs) [] with
      | mk w' r' =>
        rw [h2'] at h
        simp at h
        exact h.2.symm
    rw [h2]
    have hle : (nextWordLoop (c :: cs) []).2.length ≤ cs.length := by
      simp only [nextWordLoop]
      split
      · exact key cs []
      · split
        · exact Nat.le_refl _
        · exact key cs _
    exact Nat.lt_succ_of_le hle

/-- The loop of `handle_client_message`, with the token source already
reduced to the list of words `next_word` will produce. -/
def handleTokens : List String → State → String → List String → List Command → Nat →
    Except String (List Command)
  | [], _, _, _, instructions, _ => .ok instructions
  | raw_word :: rest, state, command_name, args, instructions, items_left_count =>
    match parser_step raw_word state command_name args instructions items_left_count with
    | .fatal e => .error e
    | .next s n a i c => handleTokens rest s n a i c

/-- The `while let Some(raw_word) = roller.next_word()` loop of
`handle_client_message`, drawing words from the character cursor. -/
def handle_loop (chars : List Char) (state : State) (command_name : String)
    (args : List String) (instructions : List Command) (items_left_count : Nat) :
    Except String (List Command) :=
  match h : next_word chars with
  | (none, _) => .ok instructions
  | (some raw_word, rest) =>
    match parser_step raw_word state command_name args instructions items_left_count with
    | .fatal e => .error e
    | .next s n a i c => handle_loop rest s n a i c
termination_by chars.length
decreasing_by
  have key : ∀ (cs : List Char) (acc : List Char),
      (nextWordLoop cs acc).2.length ≤ cs.length := by
    intro cs
    induction cs with
    | nil => intro acc; simp [nextWordLoop]
    | cons c rest2 ih =>
      intro acc
      simp only [nextWordLoop]
      split
      · exact Nat.le_succ_of_le (ih acc)
      · split
        · exact Nat.le_succ_of_le (Nat.le_refl _)
        · exact Nat.le_succ_of_le (ih _)
  cases chars with
  | nil => simp [next_word] at h
  | cons c cs =>
    simp only [next_word] at h
    have h2 : rest = (nextWordLoop (c :: cs) []).2 := by
      cases h2' : nextWordLoop (c :: cs) [] with
      | mk w' r' =>
        rw [h2'] at h
        simp at h
        exact h.2.symm
    rw [h2]
    have hle : (nextWordLoop (c :: cs) []).2.length ≤ cs.length := by
      simp only [nextWordLoop]
      split
      · exact key cs []
      · split
        · exact Nat.le_refl _
        · exact key cs _
    exact Nat.lt_succ_of_le hle

/-- `handle_client_message` from the source: initial state `ReadingArray`,
empty accumulators, `items_left_count = 0`. -/
def handle_client_message (message : String) : Except String (List Command) :=
  handle_loop message.toList .ReadingArray "" [] [] 0

/-- A list of segments, each terminated by CRLF, as one character buffer. -/
def joinCRLF (segs : List String) : List Char :=
  segs.foldr (fun s acc => s.toList ++ '\r' :: '\n' :: acc) []

/-- Tokens of a run of bulk strings: for each pair `(l, s)`, the declared
length token `$l` followed by the content token `s`. -/
def bulkTokens : List (String × String) → List String
  | [] => []
  | (l, s) :: rest => ("$" ++ l) :: s :: bulkTokens rest

/-- The spec's reading of the tokenization property: the segments of a text
split on the two-character CRLF terminator (Rust `str::split`, which yields
empty segments between adjacent separators and after a trailing one). -/
def spec_split_crlf : List Char → List (List Char)
  | [] => [[]]
  | '\r' :: '\n' :: rest => [] :: spec_split_crlf rest
  | c :: rest =>
    match spec_split_crlf rest with
    | [] => [[c]]
    | seg :: segs => (c :: seg) :: segs

/-! Equation lemmas for the two well-founded loops. -/

theorem nextWordLoop_rest_length_le (cs : List Char) :
    ∀ acc, (nextWordLoop cs acc).2.length ≤ cs.length := by
  induction cs with
  | nil => intro acc; simp [nextWordLoop]
  | cons c rest ih =>
    intro acc
    simp only [nextWordLoop]
    split
    · exact Nat.le_succ_of_le (ih acc)
    · split
      · exact Nat.le_succ_of_le (Nat.le_refl _)
      · exact Nat.le_succ_of_le (ih _)

theorem next_word_rest_length_lt {chars rest : List Char} {w : String}
    (h : next_word chars = (some w, rest)) : rest.length < chars.length := by
  match chars with
  | [] => simp [next_word] at h
  | c :: cs =>
    simp only [next_word] at h
    have h2 : rest = (nextWordLoop (c :: cs) []).2 := by
      cases h' : nextWordLoop (c :: cs) [] with
      | mk w' r' => rw [h'] at h; simp at h; exact h.2.symm
    rw [h2]
    have : (nextWordLoop (c :: cs) []).2.length ≤ cs.length := by
      simp only [nextWordLoop]
      split
      · exact nextWordLoop_rest_length_le cs []
      · split
        · exact Nat.le_refl _
        · exact nextWordLoop_rest_length_le cs _
    exact Nat.lt_succ_of_le this

theorem allWords_eq_nil {chars r : List Char} (h : next_word chars = (none, r)) :
    allWords chars = [] := by
  conv_lhs => unfold allWords
  split
  · rfl
  · rename_i w rest heq
    rw [h] at heq
    cases heq

theorem allWords_eq_cons {chars rest : List Char} {w : String}
    (h : next_word chars = (some w, rest)) :
    allWords chars = w :: allWords rest := by
  conv_lhs => unfold allWords
  split
  · rename_i heq
    rw [h] at heq
    cases heq
  · rename_i w' rest' heq
    rw [h] at heq
    cases heq
    rfl

theorem handle_loop_eq_nil {chars r : List Char} {s : State} {n : String}
    {a : List String} {i : List Command} {c : Nat}
    (h : next_word chars = (none, r)) :
    handle_loop chars s n a i c = .ok i := by
  conv_lhs => unfold handle_loop
  split
  · rfl
  · rename_i w rest heq
    rw [h] at heq
    cases heq

theorem handle_loop_eq_cons {chars rest : List Char} {w : String} {s : State}
    {n : String} {a : List String} {i : List Command} {c : Nat}
    (h : next_word chars = (some w, rest)) :
    handle_loop chars s n a i c =
      match parser_step w s n a i c with
      | .fatal e => .error e
      | .next s' n' a' i' c' => handle_loop rest s' n' a' i' c' := by
  conv_lhs => unfold handle_loop
  split
  · rename_i heq
    rw [h] at heq
    cases heq
  · rename_i w' rest' heq
    rw [h] at heq
    cases heq
    rfl

/-- The character-level loop of `handle_client_message` processes exactly the
words of `allWords`. -/
theorem handle_loop_eq_handleTokens (chars : List Char) (s : State) (n : String)
    (a : List String) (i : List Command) (c : Nat) :
    handle_loop chars s n a i c = handleTokens (allWords chars) s n a i c := by
  generalize hlen : chars.length = len
  induction len using Nat.strong_induction_on generalizing chars s n a i c with
  | _ len ih =>
    cases h : next_word chars with
    | mk ow rest =>
      cases ow with
      | none =>
        rw [handle_loop_eq_nil h, allWords_eq_nil h]
        rfl
      | some w =>
        rw [handle_loop_eq_cons h, allWords_eq_cons h]
        simp only [handleTokens]
        cases parser_step w s n a i c with
        | fatal e => rfl
        | next s' n' a' i' c' =>
          subst hlen
          exact ih rest.length (next_word_rest_length_lt h) rest s' n' a' i' c' rfl

/-! Tokenizer lemmas: `next_word` on CRLF-joined segments. -/

theorem nextWordLoop_append_crlf (w : List Char)
    (hw : ∀ c ∈ w, c ≠ '\r' ∧ c ≠ '\n') :
    ∀ rest acc, nextWordLoop (w ++ '\r' :: '\n' :: rest) acc = (acc ++ w, rest) := by
  induction w with
  | nil =>
    intro rest acc
    simp [nextWordLoop]
  | cons c w ih =>
    intro rest acc
    have hc := hw c (by simp)
    simp only [List.cons_append, nextWordLoop, if_neg hc.1, if_neg hc.2, List.append_eq]
    rw [ih (fun c hc => hw c (by simp [hc])) rest (acc ++ [c])]
    simp

theorem nextWordLoop_no_term (w : List Char)
    (hw : ∀ c ∈ w, c ≠ '\r' ∧ c ≠ '\n') :
    ∀ acc, nextWordLoop w acc = (acc ++ w, []) := by
  induction w with
  | nil =>
    intro acc
    simp [nextWordLoop]
  | cons c w ih =>
    intro acc
    have hc := hw c (by simp)
    simp only [nextWordLoop, if_neg hc.1, if_neg hc.2, List.append_eq]
    rw [ih (fun c hc => hw c (by simp [hc])) (acc ++ [c])]
    simp

theorem next_word_seg_crlf (s : String) (rest : List Char)
    (hne : s.toList ≠ []) (hnc : ∀ c ∈ s.toList, c ≠ '\r' ∧ c ≠ '\n') :
    next_word (s.toList ++ '\r' :: '\n' :: rest) = (some s, rest) := by
  cases hs : s.toList with
  | nil => exact absurd hs hne
  | cons c cs =>
    have hloop := nextWordLoop_append_crlf (c :: cs) (hs ▸ hnc) rest []
    simp only [next_word, List.cons_append]
    rw [show (c :: (cs ++ '\r' :: '\n' :: rest)) = ((c :: cs) ++ '\r' :: '\n' :: rest) by simp,
      hloop]
    simp only [List.nil_append, List.isEmpty_cons, ite_false, Bool.false_eq_true]
    rw [show (⟨c :: cs⟩ : String) = ⟨s.toList⟩ by rw [hs], show (⟨s.toList⟩ : String) = s from rfl]

theorem next_word_seg_eof (s : String)
    (hne : s.toList ≠ []) (hnc : ∀ c ∈ s.toList, c ≠ '\r' ∧ c ≠ '\n') :
    next_word s.toList = (some s, []) := by
  cases hs : s.toList with
  | nil => exact absurd hs hne
  | cons c cs =>
    have hloop := nextWordLoop_no_term (c :: cs) (hs ▸ hnc) []
    simp only [next_word]
    rw [hloop]
    simp only [List.nil_append, List.isEmpty_cons, ite_false, Bool.false_eq_true]
    rw [show (⟨c :: cs⟩ : String) = ⟨s.toList⟩ by rw [hs], show (⟨s.toList⟩ : String) = s from rfl]

/-- Tokenizing a CRLF-terminated join of nonempty terminator-free segments
recovers exactly the segments. -/
theorem allWords_joinCRLF (segs : List String)
    (h : ∀ s ∈ segs, s.toList ≠ [] ∧ ∀ c ∈ s.toList, c ≠ '\r' ∧ c ≠ '\n') :
    allWords (joinCRLF segs) = segs := by
  induction segs with
  | nil => exact allWords_eq_nil (show next_word (joinCRLF []) = (none, []) from rfl)
  | cons s segs ih =>
    obtain ⟨hne, hnc⟩ := h s (by simp)
    have hnw : next_word (joinCRLF (s :: segs)) = (some s, joinCRLF segs) :=
      next_word_seg_crlf s (joinCRLF segs) hne hnc
    rw [allWords_eq_cons hnw, ih (fun t ht => h t (by simp [ht]))]

/-- Tokenizing with a trailing segment that has no terminator: the
end-of-buffer still yields the last segment. -/
theorem allWords_joinCRLF_trailing (segs : List String) (last : String)
    (h : ∀ s ∈ segs, s.toList ≠ [] ∧ ∀ c ∈ s.toList, c ≠ '\r' ∧ c ≠ '\n')
    (hl : last.toList ≠ []) (hlc : ∀ c ∈ last.toList, c ≠ '\r' ∧ c ≠ '\n') :
    allWords (joinCRLF segs ++ last.toList) = segs ++ [last] := by
  induction segs with
  | nil =>
    have hnw : next_word (joinCRLF [] ++ last.toList) = (some last, []) := by
      rw [show joinCRLF [] ++ last.toList = last.toList by simp [joinCRLF]]
      exact next_word_seg_eof last hl hlc
    rw [allWords_eq_cons hnw, allWords_eq_nil (show next_word [] = (none, []) from rfl)]
    rfl
  | cons s segs ih =>
    obtain ⟨hne, hnc⟩ := h s (by simp)
    have hshape : joinCRLF (s :: segs) ++ last.toList =
        s.toList ++ '\r' :: '\n' :: (joinCRLF segs ++ last.toList) := by
      simp [joinCRLF]
    have hnw : next_word (joinCRLF (s :: segs) ++ last.toList) =
        (some s, joinCRLF segs ++ last.toList) := by
      rw [hshape]
      exact next_word_seg_crlf s _ hne hnc
    rw [allWords_eq_cons hnw, ih (fun t ht => h t (by simp [ht]))]
    rfl

/-! Parser-step lemmas: how one loop iteration acts on framing tokens. -/

theorem string_toList_append (s t : String) : (s ++ t).toList = s.toList ++ t.toList := by
  cases s; cases t; rfl

theorem parser_step_array_header (d : String) {n : Nat}
    (hd : rust_trim ("*" ++ d) = "*" ++ d)
    (hparse : rust_parse_u64 d = some n)
    (name : String) (args : List String) (instrs : List Command) (cnt : Nat) :
    parser_step ("*" ++ d) .ReadingArray name args instrs cnt =
      .next .ReadingBulkStringLength name args instrs n := by
  have htl : ("*" ++ d).toList = '*' :: d.toList := by
    rw [string_toList_append]; rfl
  simp only [parser_step, hd, htl, List.head?_cons, List.drop_succ_cons, List.drop_zero]
  rw [show get_instruction_type '*' = .ok .Array from rfl]
  simp only [ne_eq, not_true_eq_false, reduceIte,
    show (⟨d.toList⟩ : String) = d from rfl, hparse]

theorem parser_step_array_in_bulk (d : String)
    (hd : rust_trim ("*" ++ d) = "*" ++ d)
    (name : String) (args : List String) (instrs : List Command) (cnt : Nat) :
    parser_step ("*" ++ d) .ReadingBulkStringLength name args instrs cnt =
      .fatal "expected bulk string" := by
  have htl : ("*" ++ d).toList = '*' :: d.toList := by
    rw [string_toList_append]; rfl
  simp only [parser_step, hd, htl, List.head?_cons]
  rw [show get_instruction_type '*' = .ok .Array from rfl]
  simp

theorem parser_step_bulk_len (l : String)
    (hl : rust_trim ("$" ++ l) = "$" ++ l)
    (name : String) (args : List String) (instrs : List Command) (cnt : Nat) :
    parser_step ("$" ++ l) .ReadingBulkStringLength name args instrs cnt =
      .next .ReadingBulkStringContent name args instrs cnt := by
  have htl : ("$" ++ l).toList = '$' :: l.toList := by
    rw [string_toList_append]; rfl
  simp only [parser_step, hl, htl, List.head?_cons]
  rw [show get_instruction_type '$' = .ok .BulkString from rfl]
  simp

theorem parser_step_content_more (w name : String) (args : List String)
    (instrs : List Command) (cnt : Nat) (hcnt : cnt ≠ 1) :
    parser_step w .ReadingBulkStringContent name args instrs cnt =
      .next .ReadingBulkStringLength (if name = "" then rust_trim w else name)
        (if name = "" then args else args ++ [rust_trim w]) instrs (u64_sub_one cnt) := by
  simp only [parser_step, if_pos hcnt, ne_eq]
  by_cases hname : name = "" <;> simp [hname]

theorem parser_step_content_last (w name : String) (args : List String)
    (instrs : List Command) :
    parser_step w .ReadingBulkStringContent name args instrs 1 =
      (match dispatch_command (if name = "" then rust_trim w else name)
          (if name = "" then args else args ++ [rust_trim w]) with
       | .error e => .fatal e
       | .ok (some cmd) =>
         .next .ReadingBulkStringLength ""
           (if name = "" then args else args ++ [rust_trim w]) (instrs ++ [cmd]) 1
       | .ok none =>
         .next .ReadingBulkStringLength (if name = "" then rust_trim w else name)
           (if name = "" then args else args ++ [rust_trim w]) instrs 1) := by
  simp only [parser_step, ne_eq, not_true_eq_false, reduceIte]
  by_cases hname : name = "" <;> simp [hname]

/-- Processing a nonempty run of bulk strings from `ReadingBulkStringLength`
with a nonempty accumulated command name: every content token is appended to
`args` and the last one triggers dispatch with `items_left_count` still 1. -/
theorem handleTokens_bulk_run (ps : List (String × String)) (rest : List String)
    (name : String) (args : List String) (instrs : List Command)
    (hname : name ≠ "")
    (hps : ∀ p ∈ ps, rust_trim ("$" ++ p.1) = "$" ++ p.1)
    (hne : ps ≠ []) :
    handleTokens (bulkTokens ps ++ rest) .ReadingBulkStringLength name args instrs ps.length =
      (match dispatch_command name (args ++ ps.map (fun p => rust_trim p.2)) with
       | .error e => .error e
       | .ok (some cmd) =>
         handleTokens rest .ReadingBulkStringLength ""
           (args ++ ps.map (fun p => rust_trim p.2)) (instrs ++ [cmd]) 1
       | .ok none =>
         handleTokens rest .ReadingBulkStringLength name
           (args ++ ps.map (fun p => rust_trim p.2)) instrs 1) := by
  induction ps generalizing args with
  | nil => exact absurd rfl hne
  | cons p tail ih =>
    obtain ⟨l, s⟩ := p
    have hl := hps (l, s) (by simp)
    simp only [bulkTokens, List.cons_append, List.append_eq, handleTokens]
    rw [parser_step_bulk_len l hl]
    simp only [handleTokens]
    cases tail with
    | nil =>
      rw [show ([(l, s)] : List (String × String)).length = 1 from rfl,
        parser_step_content_last s name args instrs]
      cases hd : dispatch_command name (args ++ [rust_trim s]) with
      | error e => simp [if_neg hname, hd, handleTokens, bulkTokens]
      | ok o => cases o <;> simp [if_neg hname, hd, handleTokens, bulkTokens]
    | cons q qs =>
      rw [show ((l, s) :: q :: qs : List (String × String)).length
            = (q :: qs).length + 1 from rfl]
      have hcnt : (q :: qs).length + 1 ≠ 1 := by simp
      rw [parser_step_content_more s name args instrs _ hcnt]
      simp only [if_neg hname]
      have hsub : u64_sub_one ((q :: qs).length + 1) = (q :: qs).length := by
        simp [u64_sub_one]
      rw [hsub, ih (args ++ [rust_trim s]) (fun p hp => hps p (by simp [hp])) (by simp)]
      simp [List.append_assoc]

/-- Processing one complete well-framed command from `ReadingArray` with an
empty accumulated name: the declared count is `1 + ps.length` (name plus
arguments); the parser dispatches with the trimmed name token and returns to
`ReadingBulkStringLength` with `items_left_count = 1`. -/
theorem handleTokens_command_run (d l0 nameSeg : String)
    (ps : List (String × String)) (rest : List String)
    (args : List String) (instrs : List Command) (cnt : Nat)
    (hd : rust_trim ("*" ++ d) = "*" ++ d)
    (hparse : rust_parse_u64 d = some (ps.length + 1))
    (hl0 : rust_trim ("$" ++ l0) = "$" ++ l0)
    (hps : ∀ p ∈ ps, rust_trim ("$" ++ p.1) = "$" ++ p.1)
    (hname : ps ≠ [] → rust_trim nameSeg ≠ "") :
    handleTokens (("*" ++ d) :: ("$" ++ l0) :: nameSeg :: (bulkTokens ps ++ rest))
        .ReadingArray "" args instrs cnt =
      (match dispatch_command (rust_trim nameSeg)
          (args ++ ps.map (fun p => rust_trim p.2)) with
       | .error e => .error e
       | .ok (some cmd) =>
         handleTokens rest .ReadingBulkStringLength ""
           (args ++ ps.map (fun p => rust_trim p.2)) (instrs ++ [cmd]) 1
       | .ok none =>
         handleTokens rest .ReadingBulkStringLength (rust_trim nameSeg)
           (args ++ ps.map (fun p => rust_trim p.2)) instrs 1) := by
  simp only [handleTokens]
  rw [parser_step_array_header d hd hparse]
  simp only [handleTokens]
  rw [parser_step_bulk_len l0 hl0]
  simp only [handleTokens]
  cases ps with
  | nil =>
    simp only [List.length_nil, Nat.zero_add]
    rw [parser_step_content_last nameSeg "" args instrs]
    simp only [reduceIte, List.map_nil, List.append_nil]
    cases hdis : dispatch_command (rust_trim nameSeg) args with
    | error e => simp [handleTokens]
    | ok o => cases o <;> simp [handleTokens, bulkTokens]
  | cons q qs =>
    have hcnt : ((q :: qs).length + 1) ≠ 1 := by simp
    rw [parser_step_content_more nameSeg "" args instrs _ hcnt]
    simp only [reduceIte]
    have hsub : u64_sub_one ((q :: qs).length + 1) = (q :: qs).length := by
      simp [u64_sub_one]
    rw [hsub,
      handleTokens_bulk_run (q :: qs) rest (rust_trim nameSeg) args instrs
        (hname (by simp)) hps (by simp)]

/-! Storage-map lemmas. -/

theorem storage_get_remove_self (st : Storage) (k : String) :
    Storage.get (Storage.remove st k) k = none := by
  induction st with
  | nil => rfl
  | cons p st ih =>
    simp only [Storage.remove, List.filter_cons]
    by_cases h : p.1 == k
    · simpa [h, Storage.remove] using ih
    · simpa [Storage.get, List.find?_cons, h, Storage.remove] using ih

theorem storage_get_insert_self (st : Storage) (k : String) (e : StorageEntry) :
    Storage.get (Storage.insert st k e) k = some e := by
  simp [Storage.get, Storage.insert, List.find?_cons]

/-! Tokens never retain a terminator character. -/

theorem nextWordLoop_word_no_crlf (cs : List Char) :
    ∀ acc, (∀ c ∈ acc, c ≠ '\r' ∧ c ≠ '\n') →
      ∀ c ∈ (nextWordLoop cs acc).1, c ≠ '\r' ∧ c ≠ '\n' := by
  induction cs with
  | nil => intro acc h; simpa [nextWordLoop] using h
  | cons c cs ih =>
    intro acc h
    simp only [nextWordLoop]
    split
    · exact ih acc h
    · split
      · exact h
      · rename_i hr hn
        refine ih (acc ++ [c]) ?_
        intro c' hc'
        rcases List.mem_append.mp hc' with hmem | hmem
        · exact h c' hmem
        · simp only [List.mem_singleton] at hmem
          exact hmem ▸ ⟨hr, hn⟩

theorem next_word_no_crlf {chars : List Char} {w : String} {rest : List Char}
    (h : next_word chars = (some w, rest)) :
    ∀ c ∈ w.toList, c ≠ '\r' ∧ c ≠ '\n' := by
  cases chars with
  | nil => simp [next_word] at h
  | cons a cs =>
    simp only [next_word] at h
    have hw : w = ⟨(nextWordLoop (a :: cs) []).1⟩ := by
      cases h' : nextWordLoop (a :: cs) [] with
      | mk w' r' =>
        rw [h'] at h
        by_cases he : w'.isEmpty <;> simp [he] at h
        exact h.1.symm
    rw [hw]
    exact nextWordLoop_word_no_crlf (a :: cs) [] (by simp)

theorem allWords_no_crlf (chars : List Char) (w : String) (hw : w ∈ allWords chars) :
    ∀ c ∈ w.toList, c ≠ '\r' ∧ c ≠ '\n' := by
  generalize hlen : chars.length = len
  induction len using Nat.strong_induction_on generalizing chars with
  | _ len ih =>
    cases h : next_word chars with
    | mk ow rest =>
      cases ow with
      | none => rw [allWords_eq_nil h] at hw; cases hw
      | some w' =>
        rw [allWords_eq_cons h] at hw
        rcases List.mem_cons.mp hw with hEq | hmem
        · exact hEq ▸ next_word_no_crlf h
        · subst hlen
          exact ih rest.length (next_word_rest_length_lt h) rest hmem rfl

/-! The decimal digits of a `Nat` are nonempty and contain no terminator. -/

theorem digitChar_ne_crlf (n : Nat) :
    Nat.digitChar n ≠ '\r' ∧ Nat.digitChar n ≠ '\n' := by
  rcases Nat.lt_or_ge n 16 with h | h
  · interval_cases n <;> exact ⟨by decide, by decide⟩
  · have h16 : Nat.digitChar n = '*' := by
      unfold Nat.digitChar
      repeat rw [if_neg (by omega)]
    rw [h16]
    exact ⟨by decide, by decide⟩

theorem toDigitsCore_no_crlf (b : Nat) (fuel : Nat) :
    ∀ (n : Nat) (ds : List Char), (∀ c ∈ ds, c ≠ '\r' ∧ c ≠ '\n') →
      ∀ c ∈ Nat.toDigitsCore b fuel n ds, c ≠ '\r' ∧ c ≠ '\n' := by
  induction fuel with
  | zero => intro n ds hds; simpa [Nat.toDigitsCore] using hds
  | succ fuel ih =>
    intro n ds hds
    simp only [Nat.toDigitsCore]
    split
    · intro c hc
      rcases List.mem_cons.mp hc with hEq | hmem
      · exact hEq ▸ digitChar_ne_crlf _
      · exact hds c hmem
    · refine ih _ _ ?_
      intro c hc
      rcases List.mem_cons.mp hc with hEq | hmem
      · exact hEq ▸ digitChar_ne_crlf _
      · exact hds c hmem

theorem toDigitsCore_ne_nil (b : Nat) :
    ∀ (fuel n : Nat) (ds : List Char), ds ≠ [] → Nat.toDigitsCore b fuel n ds ≠ [] := by
  intro fuel
  induction fuel with
  | zero => intro n ds h; simpa [Nat.toDigitsCore] using h
  | succ fuel ih =>
    intro n ds h
    simp only [Nat.toDigitsCore]
    split
    · simp
    · exact ih _ _ (by simp)

theorem natRepr_toList_ne_nil (n : Nat) : (Nat.repr n).toList ≠ [] := by
  show Nat.toDigits 10 n ≠ []
  unfold Nat.toDigits
  cases hn : n + 1 with
  | zero => cases hn
  | succ fuel =>
    simp only [Nat.toDigitsCore]
    split
    · simp
    · exact toDigitsCore_ne_nil 10 fuel _ _ (by simp)

theorem natRepr_toList_no_crlf (n : Nat) :
    ∀ c ∈ (Nat.repr n).toList, c ≠ '\r' ∧ c ≠ '\n' := by
  show ∀ c ∈ Nat.toDigits 10 n, c ≠ '\r' ∧ c ≠ '\n'
  exact toDigitsCore_no_crlf 10 (n + 1) n [] (by simp)

theorem get_instruction_type_eq_array_iff (c : Char) :
    get_instruction_type c = .ok .Array ↔ c = '*' := by
  constructor
  · intro h
    unfold get_instruction_type at h
    split_ifs at h <;> simp_all
  · intro h
    subst h
    rfl

theorem get_instruction_type_eq_bulk_iff (c : Char) :
    get_instruction_type c = .ok .BulkString ↔ c = '$' := by
  constructor
  · intro h
    unfold get_instruction_type at h
    split_ifs at h <;> simp_all
  · intro h
    subst h
    rfl

/-! Claim theorems. -/

/-- C1: for every key `k`, the `GET` arm behaves as specified: absent key
yields the null bulk string with the map unchanged; present with no expiry
yields the value; present with expiry `e` and `now > e` removes the entry
(a subsequent lookup finds it gone) and yields the null bulk string;
otherwise it yields the value. -/
theorem c1_get_lazy_eviction (st : Storage) (k : String) (now : Nat) :
    (Storage.get st k = none → get_command st k now = (st, NULL_BULK_STRING)) ∧
    (∀ v, Storage.get st k = some (StorageEntry.new v none) →
      get_command st k now = (st, format_message .BulkString v)) ∧
    (∀ v e, Storage.get st k = some (StorageEntry.new v (some e)) → now > e →
      get_command st k now = (Storage.remove st k, NULL_BULK_STRING) ∧
      Storage.get (get_command st k now).1 k = none) ∧
    (∀ v e, Storage.get st k = some (StorageEntry.new v (some e)) → ¬ now > e →
      get_command st k now = (st, format_message .BulkString v)) := by
  refine ⟨?_, ?_, ?_, ?_⟩
  · intro h
    simp [get_command, h]
  · intro v h
    simp [get_command, h, StorageEntry.new]
  · intro v e h hgt
    refine ⟨by simp [get_command, h, StorageEntry.new, hgt], ?_⟩
    simp [get_command, h, StorageEntry.new, hgt, storage_get_remove_self]
  · intro v e h hle
    simp [get_command, h, StorageEntry.new, hle]

/-- Witness for C1: a concrete expired entry is removed and reported as the
null bulk string. -/
theorem c1_get_lazy_eviction_witness :
    get_command [("k", StorageEntry.new "v" (some 5))] "k" 10 = ([], NULL_BULK_STRING) ∧
    Storage.get (get_command [("k", StorageEntry.new "v" (some 5))] "k" 10).1 "k" = none := by
  have h := (c1_get_lazy_eviction [("k", StorageEntry.new "v" (some 5))] "k" 10).2.2.1
    "v" 5 rfl (by decide)
  exact ⟨h.1.trans (by rfl), h.2⟩

/-- C7: a later `SET` replaces the entry wholesale; after `SET k v1` with a
TTL and then `SET k v2` without one, `GET k` at any later time returns `v2`
and evicts nothing, regardless of the first entry's expiry. -/
theorem c7_set_overwrites_wholesale (st : Storage) (k v1 v2 : String)
    (ms t0 t1 t2 : Nat) :
    get_command ((set_command ((set_command st k v1 (some ms) t0).1) k v2 none t1).1) k t2 =
      (((set_command ((set_command st k v1 (some ms) t0).1) k v2 none t1).1),
        format_message .BulkString v2) := by
  have hget : Storage.get ((set_command ((set_command st k v1 (some ms) t0).1) k v2 none t1).1) k
      = some (StorageEntry.new v2 none) :=
    storage_get_insert_self _ k (StorageEntry.new v2 none)
  simp [get_command, hget, StorageEntry.new]

/-- C6: a `SET` parsed with exactly 4 arguments whose 4th argument fails to
parse as an unsigned integer, or parses to a value that is not positive, is
emitted as a `Set` with no TTL rather than an error. -/
theorem c6_set_bad_ttl_treated_absent (a b c d : String)
    (hbad : rust_parse_u64 d = none ∨ rust_parse_u64 d = some 0) :
    dispatch_command "set" [a, b, c, d] = .ok (some (.Set a b none)) := by
  rcases hbad with h | h <;>
    simp [dispatch_command, show rust_to_lowercase "set" = "set" from rfl, h]

/-- Witness for C6: `SET k v px abc` is accepted as `Set k v` with no TTL. -/
theorem c6_set_bad_ttl_treated_absent_witness :
    (rust_parse_u64 "abc" = none ∨ rust_parse_u64 "abc" = some 0) ∧
    dispatch_command "set" ["k", "v", "px", "abc"] = .ok (some (.Set "k" "v" none)) :=
  ⟨Or.inl rfl, c6_set_bad_ttl_treated_absent "k" "v" "px" "abc" (Or.inl rfl)⟩

/-- C9: no arity check precedes positional indexing: a well-framed `get`
with zero arguments or `set` with fewer than two arguments panics with an
out-of-bounds index instead of producing a command list. -/
theorem c9_no_arity_check (args : List String) (h2 : args.length < 2) :
    handle_client_message "*1\r\n$3\r\nget\r\n" = .error "index out of bounds" ∧
    handle_client_message "*1\r\n$3\r\nset\r\n" = .error "index out of bounds" ∧
    dispatch_command "get" [] = .error "index out of bounds" ∧
    dispatch_command "set" args = .error "index out of bounds" := by
  refine ⟨?_, ?_, rfl, ?_⟩
  · rw [handle_client_message, handle_loop_eq_handleTokens,
      show "*1\r\n$3\r\nget\r\n".toList = joinCRLF ["*1", "$3", "get"] by rfl,
      allWords_joinCRLF ["*1", "$3", "get"] (by decide)]
    rfl
  · rw [handle_client_message, handle_loop_eq_handleTokens,
      show "*1\r\n$3\r\nset\r\n".toList = joinCRLF ["*1", "$3", "set"] by rfl,
      allWords_joinCRLF ["*1", "$3", "set"] (by decide)]
    rfl
  · match args, h2 with
    | [], _ => rfl
    | [a], _ =>
      simp [dispatch_command, show rust_to_lowercase "set" = "set" from rfl]

/-- Witness for C9 at the concrete one-argument list. -/
theorem c9_no_arity_check_witness :
    (["k"] : List String).length < 2 ∧
    dispatch_command "set" ["k"] = .error "index out of bounds" :=
  ⟨by decide, (c9_no_arity_check ["k"] (by decide)).2.2.2⟩

/-- C5: a token whose first character maps to no sigil is fatal in both
sigil-checking states (with the `unknown type` panic), and any token not
starting with `*` is fatal in `ReadingArray`, any token not starting with
`$` is fatal in `ReadingBulkStringLength`. -/
theorem c5_sigil_mismatch_fatal (raw name : String) (args : List String)
    (instrs : List Command) (cnt : Nat) (c : Char)
    (hc : (rust_trim raw).toList.head? = some c) :
    ((c ≠ '+' ∧ c ≠ '-' ∧ c ≠ ':' ∧ c ≠ '$' ∧ c ≠ '*') →
      parser_step raw .ReadingArray name args instrs cnt =
        .fatal ("unknown type: " ++ c.toString) ∧
      parser_step raw .ReadingBulkStringLength name args instrs cnt =
        .fatal ("unknown type: " ++ c.toString)) ∧
    (c ≠ '*' → ∃ e, parser_step raw .ReadingArray name args instrs cnt = .fatal e) ∧
    (c ≠ '$' → ∃ e, parser_step raw .ReadingBulkStringLength name args instrs cnt = .fatal e) := by
  refine ⟨?_, ?_, ?_⟩
  · intro ⟨h1, h2, h3, h4, h5⟩
    have hgit : get_instruction_type c = .error ("unknown type: " ++ c.toString) := by
      simp [get_instruction_type, h1, h2, h3, h4, h5]
    constructor <;> simp [parser_step, show (rust_trim raw).data.head? = some c from hc, hgit]
  · intro hstar
    cases hgit : get_instruction_type c with
    | error e => exact ⟨e, by simp [parser_step, show (rust_trim raw).data.head? = some c from hc, hgit]⟩
    | ok t =>
      have ht : t ≠ MessageType.Array := by
        intro hEq
        exact hstar ((get_instruction_type_eq_array_iff c).mp (hEq ▸ hgit))
      exact ⟨"expected array", by simp [parser_step, show (rust_trim raw).data.head? = some c from hc, hgit, ht]⟩
  · intro hdollar
    cases hgit : get_instruction_type c with
    | error e => exact ⟨e, by simp [parser_step, show (rust_trim raw).data.head? = some c from hc, hgit]⟩
    | ok t =>
      have ht : t ≠ MessageType.BulkString := by
        intro hEq
        exact hdollar ((get_instruction_type_eq_bulk_iff c).mp (hEq ▸ hgit))
      exact ⟨"expected bulk string", by simp [parser_step, show (rust_trim raw).data.head? = some c from hc, hgit, ht]⟩

/-- Witness for C5: the token `foo` is fatal in both sigil-checking states. -/
theorem c5_sigil_mismatch_fatal_witness :
    (rust_trim "foo").toList.head? = some 'f' ∧
    parser_step "foo" .ReadingArray "" [] [] 0 = .fatal ("unknown type: " ++ 'f'.toString) ∧
    (∃ e, parser_step "foo" .ReadingBulkStringLength "" [] [] 0 = .fatal e) := by
  have h := c5_sigil_mismatch_fatal "foo" "" [] [] 0 'f' rfl
  exact ⟨rfl, (h.1 (by decide)).1, h.2.2 (by decide)⟩

/-- C4 counterexample: the text `a\r\n\r\nb\r\n` splits on CRLF into the
segments `a`, ``, `b` (and a trailing empty under the Rust convention), but
the token sequence is just `a`: the empty segment yields `None`, which stops
token consumption, so the segments are not reconstructed. -/
theorem c4_counterexample :
    allWords ("a\r\n\r\nb\r\n".toList) = ["a"] ∧
    spec_split_crlf ("a\r\n\r\nb\r\n".toList) = [['a'], [], ['b'], []] ∧
    (allWords ("a\r\n\r\nb\r\n".toList)).map String.toList ≠
      spec_split_crlf ("a\r\n\r\nb\r\n".toList) ∧
    (allWords ("a\r\n\r\nb\r\n".toList)).map String.toList ≠
      (spec_split_crlf ("a\r\n\r\nb\r\n".toList)).dropLast := by
  have h1 : allWords ("a\r\n\r\nb\r\n".toList) = ["a"] := by
    rw [allWords_eq_cons (show next_word ("a\r\n\r\nb\r\n".toList) =
        (some "a", ['\r', '\n', 'b', '\r', '\n']) by decide),
      allWords_eq_nil (show next_word ['\r', '\n', 'b', '\r', '\n'] =
        (none, ['b', '\r', '\n']) by decide)]
  refine ⟨h1, by decide, ?_, ?_⟩ <;> rw [h1] <;> decide

/-- C4 amended: the reconstruction half of the claim holds for texts whose
CRLF segments are all nonempty and free of terminator characters (with or
without a trailing CRLF); unconditionally, no returned token retains `\r`
or `\n`, and `next_word` returns `none` on an empty remainder.  For other
texts reconstruction fails: an empty segment stops tokenization and a stray
`\r` inside a segment is dropped from its token. -/
theorem c4_tokenization_amended :
    (∀ segs : List String,
      (∀ s ∈ segs, s.toList ≠ [] ∧ ∀ c ∈ s.toList, c ≠ '\r' ∧ c ≠ '\n') →
      allWords (joinCRLF segs) = segs) ∧
    (∀ (segs : List String) (last : String),
      (∀ s ∈ segs, s.toList ≠ [] ∧ ∀ c ∈ s.toList, c ≠ '\r' ∧ c ≠ '\n') →
      last.toList ≠ [] → (∀ c ∈ last.toList, c ≠ '\r' ∧ c ≠ '\n') →
      allWords (joinCRLF segs ++ last.toList) = segs ++ [last]) ∧
    (∀ (chars : List Char) (w : String), w ∈ allWords chars →
      ∀ c ∈ w.toList, c ≠ '\r' ∧ c ≠ '\n') ∧
    next_word [] = (none, []) :=
  ⟨allWords_joinCRLF, allWords_joinCRLF_trailing, allWords_no_crlf, rfl⟩

/-- Witness for C4 at concrete segments, terminated and unterminated. -/
theorem c4_tokenization_amended_witness :
    allWords (joinCRLF ["hello", "world"]) = ["hello", "world"] ∧
    allWords (joinCRLF ["ab"] ++ "cd".toList) = ["ab", "cd"] :=
  ⟨c4_tokenization_amended.1 ["hello", "world"] (by decide),
    c4_tokenization_amended.2.1 ["ab"] "cd" (by decide) (by decide) (by decide)⟩

/-- C8 counterexample: the non-empty value `a\nb` does not survive the
encode-then-tokenize round trip: its embedded `\n` acts as a terminator, so
the tokens are `$3`, `a`, `b` instead of `$3`, `a\nb`. -/
theorem c8_counterexample :
    format_message .BulkString "a\nb" = "$3\r\na\nb\r\n" ∧
    allWords ((format_message .BulkString "a\nb").toList) = ["$3", "a", "b"] ∧
    allWords ((format_message .BulkString "a\nb").toList) ≠
      ["$" ++ toString ("a\nb".utf8ByteSize), "a\nb"] := by
  have h0 : format_message .BulkString "a\nb" = "$3\r\na\nb\r\n" := by decide
  have h1 : allWords ((format_message .BulkString "a\nb").toList) = ["$3", "a", "b"] := by
    rw [h0,
      allWords_eq_cons (show next_word ("$3\r\na\nb\r\n".toList) =
        (some "$3", ['a', '\n', 'b', '\r', '\n']) by decide),
      allWords_eq_cons (show next_word ['a', '\n', 'b', '\r', '\n'] =
        (some "a", ['b', '\r', '\n']) by decide),
      allWords_eq_cons (show next_word ['b', '\r', '\n'] =
        (some "b", []) by decide),
      allWords_eq_nil (show next_word ([] : List Char) = (none, []) by decide)]
  refine ⟨h0, h1, ?_⟩
  rw [h1]
  decide

/-- C8 amended: for every non-empty value containing neither `\r` nor `\n`,
tokenizing the encoded bulk-string reply yields exactly the length token
`$<len>` followed by the original value. -/
theorem c8_roundtrip_amended (s : String) (hne : s.toList ≠ [])
    (hnc : ∀ c ∈ s.toList, c ≠ '\r' ∧ c ≠ '\n') :
    allWords ((format_message .BulkString s).toList) =
      ["$" ++ toString s.utf8ByteSize, s] := by
  have hsep : SEPARATOR.toList = ['\r', '\n'] := rfl
  have hshape : (format_message .BulkString s).toList =
      joinCRLF ["$" ++ toString s.utf8ByteSize, s] := by
    simp [format_message, joinCRLF, string_toList_append, hsep,
      show SEPARATOR.data = ['\r', '\n'] from rfl, List.append_assoc]
  rw [hshape]
  apply allWords_joinCRLF
  intro t ht
  rcases List.mem_cons.mp ht with hEq | ht2
  · subst hEq
    have hdig : ("$" ++ toString s.utf8ByteSize).toList =
        '$' :: (Nat.repr s.utf8ByteSize).toList := by
      rw [string_toList_append]
      rfl
    rw [hdig]
    refine ⟨by simp, ?_⟩
    intro c hc
    rcases List.mem_cons.mp hc with hEq | hmem
    · exact hEq ▸ ⟨by decide, by decide⟩
    · exact natRepr_toList_no_crlf _ c hmem
  · rcases List.mem_cons.mp ht2 with hEq | ht3
    · exact hEq ▸ ⟨hne, hnc⟩
    · cases ht3

/-- Witness for C8 at the concrete value `hi`. -/
theorem c8_roundtrip_amended_witness :
    ("hi".toList ≠ [] ∧ ∀ c ∈ "hi".toList, c ≠ '\r' ∧ c ≠ '\n') ∧
    allWords ((format_message .BulkString "hi").toList) = ["$2", "hi"] :=
  ⟨⟨by decide, by decide⟩,
    (c8_roundtrip_amended "hi" (by decide) (by decide)).trans (by decide)⟩

/-- C2 counterexample: a message carrying two well-formed pipelined `ECHO`
commands.  Instead of returning both commands, parsing panics with
`expected bulk string` at the second `*2` header (the parser returns to
`ReadingBulkStringLength`, not `ReadingArray`, after a dispatch), so no
command list is returned at all. -/
theorem c2_counterexample :
    handle_client_message "*2\r\n$4\r\necho\r\n$2\r\nhi\r\n*2\r\n$4\r\necho\r\n$3\r\nyou\r\n" =
      .error "expected bulk string" := by
  rw [handle_client_message, handle_loop_eq_handleTokens,
    show ("*2\r\n$4\r\necho\r\n$2\r\nhi\r\n*2\r\n$4\r\necho\r\n$3\r\nyou\r\n").toList =
      joinCRLF ["*2", "$4", "echo", "$2", "hi", "*2", "$4", "echo", "$3", "you"] by decide,
    allWords_joinCRLF ["*2", "$4", "echo", "$2", "hi", "*2", "$4", "echo", "$3", "you"]
      (by decide)]
  rfl

/-- C2 amended: for a message of two well-formed pipelined commands, the
parser dispatches the first command (resetting only the command name, not
the argument accumulator) and then, because it returns to
`ReadingBulkStringLength` rather than `ReadingArray`, panics with
`expected bulk string` on the second command's `*` header; the whole parse
is fatal and no command list is returned. -/
theorem c2_pipelining_amended (d1 l1 n1 : String) (ps1 : List (String × String))
    (d2 : String) (tail2 : List String) (cmd : Command)
    (hsegs : ∀ s ∈ ("*" ++ d1) :: ("$" ++ l1) :: n1 ::
        (bulkTokens ps1 ++ ("*" ++ d2) :: tail2),
      s.toList ≠ [] ∧ ∀ c ∈ s.toList, c ≠ '\r' ∧ c ≠ '\n')
    (hd1 : rust_trim ("*" ++ d1) = "*" ++ d1)
    (hparse1 : rust_parse_u64 d1 = some (ps1.length + 1))
    (hl1 : rust_trim ("$" ++ l1) = "$" ++ l1)
    (hps1 : ∀ p ∈ ps1, rust_trim ("$" ++ p.1) = "$" ++ p.1)
    (hn1 : ps1 ≠ [] → rust_trim n1 ≠ "")
    (hdisp : dispatch_command (rust_trim n1) (ps1.map (fun p => rust_trim p.2)) =
      .ok (some cmd))
    (hd2 : rust_trim ("*" ++ d2) = "*" ++ d2) :
    handle_client_message
        ⟨joinCRLF (("*" ++ d1) :: ("$" ++ l1) :: n1 ::
          (bulkTokens ps1 ++ ("*" ++ d2) :: tail2))⟩ =
      .error "expected bulk string" := by
  rw [handle_client_message]
  rw [show (⟨joinCRLF (("*" ++ d1) :: ("$" ++ l1) :: n1 ::
      (bulkTokens ps1 ++ ("*" ++ d2) :: tail2))⟩ : String).toList =
    joinCRLF (("*" ++ d1) :: ("$" ++ l1) :: n1 ::
      (bulkTokens ps1 ++ ("*" ++ d2) :: tail2)) from rfl]
  rw [handle_loop_eq_handleTokens, allWords_joinCRLF _ hsegs]
  rw [handleTokens_command_run d1 l1 n1 ps1 (("*" ++ d2) :: tail2) [] [] 0
    hd1 hparse1 hl1 hps1 hn1]
  simp only [List.nil_append, hdisp]
  simp only [handleTokens]
  rw [parser_step_array_in_bulk d2 hd2]

/-- Witness for C2 amended: the two concrete pipelined `ECHO` commands. -/
theorem c2_pipelining_amended_witness :
    handle_client_message
        ⟨joinCRLF (("*" ++ "2") :: ("$" ++ "4") :: "echo" ::
          (bulkTokens [("2", "hi")] ++ ("*" ++ "2") :: ["$4", "echo", "$3", "you"]))⟩ =
      .error "expected bulk string" :=
  c2_pipelining_amended "2" "4" "echo" [("2", "hi")] "2" ["$4", "echo", "$3", "you"]
    (.Echo "hi") (by decide) (by decide) (by decide) (by decide)
    (by intro p hp; simp at hp; rw [hp]; decide) (fun _ => by decide) rfl (by decide)

/-- C3 counterexample: a batch pairing an unknown command `foo` with the
valid command `ping`, in both orders.  Each parse panics with
`expected bulk string` at the second `*1` header, so the valid command of
the batch is never parsed and emitted. -/
theorem c3_counterexample :
    handle_client_message "*1\r\n$3\r\nfoo\r\n*1\r\n$4\r\nping\r\n" =
      .error "expected bulk string" ∧
    handle_client_message "*1\r\n$4\r\nping\r\n*1\r\n$3\r\nfoo\r\n" =
      .error "expected bulk string" := by
  constructor
  · rw [handle_client_message, handle_loop_eq_handleTokens,
      show ("*1\r\n$3\r\nfoo\r\n*1\r\n$4\r\nping\r\n").toList =
        joinCRLF ["*1", "$3", "foo", "*1", "$4", "ping"] by decide,
      allWords_joinCRLF ["*1", "$3", "foo", "*1", "$4", "ping"] (by decide)]
    rfl
  · rw [handle_client_message, handle_loop_eq_handleTokens,
      show ("*1\r\n$4\r\nping\r\n*1\r\n$3\r\nfoo\r\n").toList =
        joinCRLF ["*1", "$4", "ping", "*1", "$3", "foo"] by decide,
      allWords_joinCRLF ["*1", "$4", "ping", "*1", "$3", "foo"] (by decide)]
    rfl

/-- C3 amended: an unknown command name on its own is recovered locally —
it is skipped, nothing is emitted and nothing panics (the message parses to
an empty command list).  But it does not keep the rest of a batch usable:
the skip leaves the stale command name in place, and any second pipelined
command panics fatally at its `*` header, so a valid command sharing a batch
with an unknown one is never emitted. -/
theorem c3_unknown_command_amended (d l0 nameSeg : String)
    (hsegs : ∀ s ∈ [("*" ++ d), ("$" ++ l0), nameSeg],
      s.toList ≠ [] ∧ ∀ c ∈ s.toList, c ≠ '\r' ∧ c ≠ '\n')
    (hd : rust_trim ("*" ++ d) = "*" ++ d)
    (hparse : rust_parse_u64 d = some 1)
    (hl0 : rust_trim ("$" ++ l0) = "$" ++ l0)
    (hunknown : dispatch_command (rust_trim nameSeg) [] = .ok none) :
    handle_client_message ⟨joinCRLF [("*" ++ d), ("$" ++ l0), nameSeg]⟩ = .ok [] ∧
    (∀ (d2 : String) (tail2 : List String),
      rust_trim ("*" ++ d2) = "*" ++ d2 →
      (∀ s ∈ ("*" ++ d2) :: tail2, s.toList ≠ [] ∧ ∀ c ∈ s.toList, c ≠ '\r' ∧ c ≠ '\n') →
      handle_client_message
          ⟨joinCRLF (("*" ++ d) :: ("$" ++ l0) :: nameSeg :: ("*" ++ d2) :: tail2)⟩ =
        .error "expected bulk string") := by
  constructor
  · rw [handle_client_message]
    rw [show (⟨joinCRLF [("*" ++ d), ("$" ++ l0), nameSeg]⟩ : String).toList =
      joinCRLF [("*" ++ d), ("$" ++ l0), nameSeg] from rfl]
    rw [handle_loop_eq_handleTokens, allWords_joinCRLF _ hsegs]
    rw [show ([("*" ++ d), ("$" ++ l0), nameSeg] : List String) =
      ("*" ++ d) :: ("$" ++ l0) :: nameSeg :: (bulkTokens [] ++ []) from rfl]
    rw [handleTokens_command_run d l0 nameSeg [] [] [] [] 0 hd
      (show rust_parse_u64 d = some (List.length [] + 1) from hparse) hl0
      (by intro p hp; cases hp) (fun h => absurd rfl h)]
    simp only [List.nil_append, List.map_nil, List.append_nil, hunknown]
    rfl
  · intro d2 tail2 hd2 hsegs2
    rw [handle_client_message]
    rw [show (⟨joinCRLF (("*" ++ d) :: ("$" ++ l0) :: nameSeg :: ("*" ++ d2) :: tail2)⟩ :
      String).toList =
      joinCRLF (("*" ++ d) :: ("$" ++ l0) :: nameSeg :: ("*" ++ d2) :: tail2) from rfl]
    rw [handle_loop_eq_handleTokens]
    rw [allWords_joinCRLF _ ?hall]
    case hall =>
      intro s hs
      rcases List.mem_cons.mp hs with h1 | hs
      · exact h1 ▸ hsegs _ (by simp)
      rcases List.mem_cons.mp hs with h1 | hs
      · exact h1 ▸ hsegs _ (by simp)
      rcases List.mem_cons.mp hs with h1 | hs
      · exact h1 ▸ hsegs _ (by simp)
      exact hsegs2 s hs
    rw [show (("*" ++ d) :: ("$" ++ l0) :: nameSeg :: ("*" ++ d2) :: tail2 : List String) =
      ("*" ++ d) :: ("$" ++ l0) :: nameSeg :: (bulkTokens [] ++ ("*" ++ d2) :: tail2)
      from rfl]
    rw [handleTokens_command_run d l0 nameSeg [] (("*" ++ d2) :: tail2) [] [] 0 hd
      (show rust_parse_u64 d = some (List.length [] + 1) from hparse) hl0
      (by intro p hp; cases hp) (fun h => absurd rfl h)]
    simp only [List.nil_append, List.map_nil, List.append_nil, hunknown]
    simp only [handleTokens]
    rw [parser_step_array_in_bulk d2 hd2]

/-- Witness for C3 amended: the unknown command `foo` alone parses to zero
commands, and followed by a pipelined `ping` it panics at the `*1` header. -/
theorem c3_unknown_command_amended_witness :
    handle_client_message ⟨joinCRLF [("*" ++ "1"), ("$" ++ "3"), "foo"]⟩ = .ok [] ∧
    handle_client_message
        ⟨joinCRLF (("*" ++ "1") :: ("$" ++ "3") :: "foo" :: ("*" ++ "1") :: ["$4", "ping"])⟩ =
      .error "expected bulk string" := by
  have h := c3_unknown_command_amended "1" "3" "foo" (by decide) (by decide) (by decide)
    (by decide) rfl
  exact ⟨h.1, h.2 "1" ["$4", "ping"] (by decide) (by decide)⟩

end Redis
